import Mathlib

/-!
Verification of the commander-tracker aggregation core against its
natural-language specification.

Conventions of the shallow embedding:
* Python strings are modelled as lists of characters (so that splitting,
  stripping and lowercasing are ordinary structural recursions).
* Python floats are modelled as exact rationals, except the backend
  weight function of src/backend/commander_stats/compute.py, which uses
  the transcendental exp and is therefore modelled over the reals.
* Python dicts keyed by strings or tuples are modelled as total functions
  from the key type together with an explicit insertion-order key list;
  sets of game ids are modelled as finite sets of naturals.
* Fallible code (the entry parser, which raises ValueError) is modelled
  with Except: Except.error corresponds to a raised exception.
-/

/-! ## Python string primitives -/

/-- Model of the Python str.strip method: drop whitespace from both ends. -/
def pyStrip (s : List Char) : List Char :=
  ((s.dropWhile Char.isWhitespace).reverse.dropWhile Char.isWhitespace).reverse

/-- Model of the Python str.lower method (ASCII case folding). -/
def pyLower (s : List Char) : List Char :=
  s.map Char.toLower

/-- Fuel-indexed worker for splitting a character list at every
non-overlapping occurrence of the separator, left to right, mirroring the
Python str.split method.  The fuel is an upper bound on the number of steps;
it is always called with the length of the input, which suffices because each
step consumes at least one character. -/
def splitGo (c0 : Char) (sep : List Char) : Nat → List Char → List Char → List (List Char)
  | 0, acc, s => [acc.reverse ++ s]
  | _ + 1, acc, [] => [acc.reverse]
  | fuel + 1, acc, c :: rest =>
      if (c0 :: sep).isPrefixOf (c :: rest) then
        acc.reverse :: splitGo c0 sep fuel [] (rest.drop sep.length)
      else
        splitGo c0 sep fuel (c :: acc) rest

/-- Model of the Python str.split method with a non-empty separator
(splitting with an empty separator raises in Python and never occurs in the
source; we return the whole input in that case). -/
def splitOnL (sep s : List Char) : List (List Char) :=
  match sep with
  | [] => [s]
  | c0 :: sep0 => splitGo c0 sep0 s.length [] s

/-- Model of the Python substring containment test (the in operator on str). -/
def containsSeq (sep : List Char) : List Char → Bool
  | [] => sep.isEmpty
  | c :: rest => sep.isPrefixOf (c :: rest) || containsSeq sep rest

/-- Value of a list of decimal digit characters, or none if the list is empty
or contains a non-digit. -/
def digitsVal (s : List Char) : Option Nat :=
  if s = [] then none
  else if s.all Char.isDigit then
    some (s.foldl (fun n c => 10 * n + (c.toNat - 48)) 0)
  else none

/-- Model of the Python int constructor on an already stripped token:
an optional sign followed by at least one decimal digit.  Returns none where
Python raises ValueError. -/
def pyToInt : List Char → Option Int
  | '-' :: rest => (digitsVal rest).map (fun n => -(n : Int))
  | '+' :: rest => (digitsVal rest).map (fun n => (n : Int))
  | s => (digitsVal s).map (fun n => (n : Int))

/-! ## The entry parser (parse_entries, src/app.py lines 91-147) -/

/-- Parsed participant line: player, commander, optional bracket.
This is the tuple (player, commander, bracket) that parse_entries appends
to its output list. -/
structure ParsedEntry where
  player : List Char
  commander : List Char
  bracket : Option Int
  deriving DecidableEq, Repr

/-- Bracket tokens treated as an absent bracket by parse_entries
(the Python set containing the empty string, n/a, na, none and null). -/
def nullTokens : List (List Char) :=
  [[], "n/a".data, "na".data, "none".data, "null".data]

/-- Spaced separator of parse_entries. -/
def sepSpaced : List Char := " - ".data

/-- Bare separator of parse_entries. -/
def sepBare : List Char := "-".data

/-- Body of the per-line loop of parse_entries, applied to the list of
already split-and-stripped parts of one line.  Mirrors src/app.py lines
113-143.  The joining separator for multi-part commanders is always the
spaced hyphen, because the Python source interpolates sep.strip() between
spaces and both possible separators strip to a bare hyphen.  Error messages
are fixed strings (the Python messages interpolate the offending line, which
is irrelevant to the claims). -/
def parse_parts (parts : List (List Char)) : Except String ParsedEntry :=
  if parts.length < 2 then Except.error ("Riga non valida")
  else
    let player := parts.headD []
    if player = [] then Except.error ("Riga non valida")
    else
      let brres : Except String (Option Int × List (List Char)) :=
        if 3 ≤ parts.length then
          let btok := pyLower (pyStrip (parts.getLastD []))
          let cps := (parts.drop 1).dropLast
          if btok ∈ nullTokens then Except.ok (none, cps)
          else
            match pyToInt btok with
            | none => Except.error ("Bracket non valido")
            | some v =>
                if v < 1 ∨ 5 < v then Except.error ("Bracket fuori range")
                else Except.ok (some v, cps)
        else Except.ok (none, parts.drop 1)
      match brres with
      | Except.error e => Except.error e
      | Except.ok (br, cps) =>
          let commander :=
            pyStrip (List.intercalate sepSpaced (cps.filter (fun c => c ≠ [])))
          if commander = [] then Except.error ("Riga non valida")
          else Except.ok ⟨player, commander, br⟩

/-- Parse one non-empty stripped line: choose the spaced separator when it
occurs in the line and the bare hyphen otherwise, split, strip every part and
delegate to parse_parts.  Mirrors src/app.py lines 109-111. -/
def parse_line (line : List Char) : Except String ParsedEntry :=
  let sep := if containsSeq sepSpaced line then sepSpaced else sepBare
  parse_parts ((splitOnL sep line).map pyStrip)

/-- Loop of parse_entries over the raw lines: strip each line, skip blank
lines, parse the rest, propagating the first error. -/
def parse_lines : List (List Char) → Except String (List ParsedEntry)
  | [] => Except.ok []
  | raw :: rest =>
      let line := pyStrip raw
      if line = [] then parse_lines rest
      else
        match parse_line line with
        | Except.error e => Except.error e
        | Except.ok entry =>
            match parse_lines rest with
            | Except.error e => Except.error e
            | Except.ok out => Except.ok (entry :: out)

instance exceptDecEq {ε α : Type} [DecidableEq ε] [DecidableEq α] :
    DecidableEq (Except ε α) := fun x y =>
  match x, y with
  | Except.error a, Except.error b =>
      if h : a = b then Decidable.isTrue (h ▸ rfl)
      else Decidable.isFalse (fun hc => h (Except.error.inj hc))
  | Except.error _, Except.ok _ => Decidable.isFalse (fun hc => Except.noConfusion hc)
  | Except.ok _, Except.error _ => Decidable.isFalse (fun hc => Except.noConfusion hc)
  | Except.ok a, Except.ok b =>
      if h : a = b then Decidable.isTrue (h ▸ rfl)
      else Decidable.isFalse (fun hc => h (Except.ok.inj hc))

/-- Model of parse_entries (src/app.py lines 91-147): split the text into
lines, parse every non-blank line, and reject an input that produced no
entries.  Line splitting is modelled on the newline character. -/
def parse_entries (text : List Char) : Except String (List ParsedEntry) :=
  match parse_lines (splitOnL ['\n'] text) with
  | Except.error e => Except.error e
  | Except.ok out =>
      if out = [] then Except.error ("Nessuna entry trovata")
      else Except.ok out

/-- Validity predicate for a parsed entry: non-empty player, non-empty
commander, bracket absent or an integer between 1 and 5. -/
def entryValid (e : ParsedEntry) : Prop :=
  e.player ≠ [] ∧ e.commander ≠ [] ∧
    (e.bracket = none ∨ ∃ v, e.bracket = some v ∧ 1 ≤ v ∧ v ≤ 5)

/-! ## Bracket-metric primitives -/

/-- Model of win_weight_from_delta (src/core.py lines 71-94; identical copies
in src/app.py and src/commander_tracker_light/db.py).  Floats are modelled as
rationals; the float(alpha) coercion of the source never fails on a rational
input and is omitted. -/
def win_weight_from_delta (delta_b : ℚ) (alpha : ℚ) : ℚ :=
  let a := if alpha < 0 then 0 else alpha
  if 0 < delta_b then 1 / (1 + a * delta_b)
  else if delta_b < 0 then 1 + a * (-delta_b)
  else 1

/-- Model of the local helper _clip of compute_stats
(src/backend/commander_stats/compute.py line 41). -/
noncomputable def pyclip (x lo hi : ℝ) : ℝ :=
  if x < lo then lo else if hi < x then hi else x

/-- Model of the local helper _weight of compute_stats
(src/backend/commander_stats/compute.py lines 29-45): a clipped exponential
with K = 0.30, W_MIN = 0.70, W_MAX = 1.40.  This is the win-weight function
of the backend engine; note that it is not the piecewise function of the
spec. -/
noncomputable def backend_weight (delta : ℝ) : ℝ :=
  pyclip (Real.exp (-(3 / 10) * delta)) (7 / 10) (14 / 10)

/-- Model of compute_table_bracket_avg (src/core.py lines 63-68; identical
copy in src/app.py lines 153-158): mean of the non-null brackets, none when
there is no rated entry. -/
def compute_table_bracket_avg (entries : List ParsedEntry) : Option ℚ :=
  let vals : List Int := entries.filterMap (fun e => e.bracket)
  if vals = [] then none
  else some ((vals.sum : ℚ) / (vals.length : ℚ))

/-- Spec-side restatement of the table bracket average (spec section 4.2),
used for the refinement comparison: arithmetic mean of bracket over the
entries whose bracket is not null, undefined when the pod has zero rated
entries. -/
def spec_table_bracket_average (entries : List ParsedEntry) : Option ℚ :=
  let rated := entries.filter (fun e => e.bracket ≠ none)
  let vs : List Int := rated.map (fun e => e.bracket.getD 0)
  if rated.length = 0 then none
  else some ((vs.sum : ℚ) / (rated.length : ℚ))

/-! ## Input model of the aggregation engine -/

/-- One game together with its pod, as the stats folds consume it: the
source iterates entries_by_game.items() (distinct game ids, each with the
list of its entries in input order) and looks the winner up in
winner_by_game (absent or null winner modelled as none, an empty winner
string as some []).  Pod entries reuse the (player, commander, bracket)
record. -/
structure PodGame where
  gid : Nat
  winner : Option (List Char)
  entries : List ParsedEntry

/-- Model of the Python test (winner and winner == p): a null or empty
winner never matches. -/
def winnerIs (winner : Option (List Char)) (p : List Char) : Bool :=
  match winner with
  | none => false
  | some w => !w.isEmpty && w == p

/-! ## Generic unweighted aggregate fold

The stats route (src/app.py lines 463-493 and 601-609) and its copy
build_stats_dataset (src/commander_tracker_light/stats_data.py lines 66-96
and 191-199) repeat one dict pattern per table: per entry, add the game id
to a set under the table key and bump a win counter when the entry belongs
to the winner.  We embed that pattern once, parameterized by the key
function, and instantiate it per table; the per-game participant count n is
passed to the key so the per-pod-size tables can use it. -/

structure Agg (K : Type) where
  games : K → Finset Nat
  wins : K → Nat
  order : List K

/-- Per-entry update: the games set-dict (setdefault + add), the win counter
(only when the winner matches), and the dict insertion order of the games
dict. -/
def aggEntry {K : Type} [DecidableEq K] (key : Nat → ParsedEntry → K)
    (gid : Nat) (n : Nat) (winner : Option (List Char))
    (st : Agg K) (e : ParsedEntry) : Agg K :=
  let k := key n e
  { games := Function.update st.games k (insert gid (st.games k)),
    wins := if winnerIs winner e.player
      then Function.update st.wins k (st.wins k + 1) else st.wins,
    order := if k ∈ st.order then st.order else st.order ++ [k] }

/-- Per-game update: fold the pod entries. -/
def aggGame {K : Type} [DecidableEq K] (key : Nat → ParsedEntry → K)
    (st : Agg K) (g : PodGame) : Agg K :=
  g.entries.foldl (aggEntry key g.gid g.entries.length g.winner) st

/-- Fold a whole dataset from the empty state. -/
def runAgg {K : Type} [DecidableEq K] (key : Nat → ParsedEntry → K)
    (gs : List PodGame) : Agg K :=
  gs.foldl (aggGame key) ⟨fun _ => ∅, fun _ => 0, []⟩

/-- Per-player table (player_games / player_wins). -/
def playerAgg (gs : List PodGame) : Agg (List Char) :=
  runAgg (fun _ e => e.player) gs

/-- Per-(player, commander) table (pair_games / pair_wins). -/
def pairAgg (gs : List PodGame) : Agg (List Char × List Char) :=
  runAgg (fun _ e => (e.player, e.commander)) gs

/-- Per-(player, pod size) table (player_by_size). -/
def playerBySizeAgg (gs : List PodGame) : Agg (List Char × Nat) :=
  runAgg (fun n e => (e.player, n)) gs

/-- Per-(player, commander, pod size) table (pair_by_size). -/
def pairBySizeAgg (gs : List PodGame) : Agg (List Char × List Char × Nat) :=
  runAgg (fun n e => (e.player, e.commander, n)) gs

/-- Per-bracket-bucket table (bracket_games / bracket_wins).  The source
keys this dict by str(bracket) with the null bracket as the n/a bucket;
since that string key is in bijection with the bracket option we key by
Option Int directly. -/
def bracketAgg (gs : List PodGame) : Agg (Option Int) :=
  runAgg (fun _ e => e.bracket) gs

/-! ## The weighted triples fold

Mirrors the triples loop of src/app.py lines 636-673 and its copy in
src/commander_tracker_light/stats_data.py lines 225-258.  The source keys
the dict by (player, commander, str(bracket)); as with the bracket buckets
we key by the bracket option itself.  The alpha parameter of the win weight
is threaded explicitly; the source calls win_weight_from_delta with its
default alpha = 0.5. -/

/-- The triple-key type: player, commander, bracket bucket. -/
abbrev TKey := List Char × List Char × Option Int

/-- Accumulator record of the triples dict. -/
structure TripleRec where
  games : Finset Nat
  wins : Nat
  weighted_wins : ℚ
  weighted_games : ℚ
  deltas : List ℚ
  table_avgs : List ℚ

/-- Initial record (the setdefault default). -/
def emptyTripleRec : TripleRec := ⟨∅, 0, 0, 0, [], []⟩

/-- State of the triples fold: the dict as a total function plus its
insertion-order key list. -/
structure Triples where
  recs : TKey → TripleRec
  order : List TKey

/-- Per-entry update of the triples fold: add the game id to the games set,
add 1 to the weighted denominator, record the table average when known; on
a win bump wins, and either apply the win weight to numerator and
denominator (delta computable) or count the win neutrally. -/
def tripleEntry (alpha : ℚ) (gid : Nat) (winner : Option (List Char))
    (bavg : Option ℚ) (st : Triples) (e : ParsedEntry) : Triples :=
  let k : TKey := (e.player, e.commander, e.bracket)
  let r := st.recs k
  let r1 : TripleRec :=
    { r with
      games := insert gid r.games,
      weighted_games := r.weighted_games + 1,
      table_avgs := match bavg with
        | some b => r.table_avgs ++ [b]
        | none => r.table_avgs }
  let r2 : TripleRec :=
    if winnerIs winner e.player then
      match e.bracket, bavg with
      | some b, some avg =>
          let delta : ℚ := (b : ℚ) - avg
          let weff := win_weight_from_delta delta alpha
          { r1 with
            wins := r1.wins + 1,
            deltas := r1.deltas ++ [delta],
            weighted_wins := r1.weighted_wins + weff,
            weighted_games := r1.weighted_games + (weff - 1) }
      | _, _ =>
          { r1 with wins := r1.wins + 1, weighted_wins := r1.weighted_wins + 1 }
    else r1
  { recs := Function.update st.recs k r2,
    order := if k ∈ st.order then st.order else st.order ++ [k] }

/-- Per-game update of the triples fold: the table bracket average is
computed from the pod once (table_avg_by_game) and shared by all its
entries. -/
def tripleGame (alpha : ℚ) (st : Triples) (g : PodGame) : Triples :=
  g.entries.foldl (tripleEntry alpha g.gid g.winner
    (compute_table_bracket_avg g.entries)) st

/-- Fold a whole dataset into the triples table. -/
def buildTriples (alpha : ℚ) (gs : List PodGame) : Triples :=
  gs.foldl (tripleGame alpha) ⟨fun _ => emptyTripleRec, []⟩

/-! ## The backend weighted fold (compute_stats,
src/backend/commander_stats/compute.py lines 49-157)

The backend groups the joined rows by game id (games dict) and computes one
weight per game from the winner bracket and the average bracket of the other
players; every participation then contributes that weight to the weighted
denominator and the winner entry also to the weighted numerator.  The winner
comparison here is plain equality (p == winner), with a null winner matching
no player. -/

/-- Model of the winner test of compute_stats (e.get("player") == winner):
plain equality against a possibly null winner. -/
def eqWinner (winner : Option (List Char)) (p : List Char) : Bool :=
  match winner with
  | none => false
  | some w => w == p

/-- Model of _to_float_bracket on an already typed bracket option. -/
noncomputable def toFloatBracket (b : Option Int) : Option ℝ :=
  b.map (fun v => (v : ℝ))

/-- Winner bracket of a game in the backend fold: the bracket of the first
entry whose player equals the winner. -/
noncomputable def backendWinnerBracket (g : PodGame) : Option ℝ :=
  match g.entries.find? (fun e => eqWinner g.winner e.player) with
  | none => none
  | some e => toFloatBracket e.bracket

/-- Numeric brackets of the non-winner entries of a game in the backend
fold. -/
noncomputable def backendOthers (g : PodGame) : List ℝ :=
  (g.entries.filter (fun e => !eqWinner g.winner e.player)).filterMap
    (fun e => toFloatBracket e.bracket)

/-- Weight of a game in the backend fold: 1 when the winner bracket is
unknown or no other player is rated, else the clipped exponential of the
delta between winner bracket and the average bracket of the others. -/
noncomputable def backendGameWeight (g : PodGame) : ℝ :=
  match backendWinnerBracket g, backendOthers g with
  | some bw, o :: os =>
      backend_weight (bw - (o :: os).sum / ((o :: os).length : ℝ))
  | _, _ => 1

/-- Accumulator row of the backend weighted dicts. -/
structure WRec where
  wins : Nat
  games : Nat
  wins_w : ℝ
  games_w : ℝ

/-- Initial backend accumulator row. -/
def emptyWRec : WRec := ⟨0, 0, 0, 0⟩

/-- State of the backend weighted fold: by player and by
(player, commander, bracket). -/
structure BackendState where
  by_player : List Char → WRec
  by_pair : TKey → WRec

/-- Per-entry update of the backend weighted fold (compute.py lines
111-137): every participation adds 1 to games and the game weight w to
games_w; the winner entry also adds 1 to wins and w to wins_w. -/
noncomputable def backendEntry (w : ℝ) (winner : Option (List Char))
    (st : BackendState) (e : ParsedEntry) : BackendState :=
  let p := e.player
  let rp := st.by_player p
  let rp1 : WRec := { rp with games := rp.games + 1, games_w := rp.games_w + w }
  let rp2 : WRec :=
    if eqWinner winner p then
      { rp1 with wins := rp1.wins + 1, wins_w := rp1.wins_w + w }
    else rp1
  let k : TKey := (p, e.commander, e.bracket)
  let rc := st.by_pair k
  let rc1 : WRec := { rc with games := rc.games + 1, games_w := rc.games_w + w }
  let rc2 : WRec :=
    if eqWinner winner p then
      { rc1 with wins := rc1.wins + 1, wins_w := rc1.wins_w + w }
    else rc1
  { by_player := Function.update st.by_player p rp2,
    by_pair := Function.update st.by_pair k rc2 }

/-- Per-game update of the backend weighted fold: compute the game weight
once, then fold the entries. -/
noncomputable def backendGame (st : BackendState) (g : PodGame) : BackendState :=
  g.entries.foldl (backendEntry (backendGameWeight g) g.winner) st

/-- Fold a whole dataset through the backend weighted aggregation. -/
noncomputable def backendStats (gs : List PodGame) : BackendState :=
  gs.foldl backendGame ⟨fun _ => emptyWRec, fun _ => emptyWRec⟩

/-- Pointwise weighted invariant of a triples state. -/
def triplesWInv (st : Triples) : Prop :=
  ∀ k : TKey, 0 ≤ (st.recs k).weighted_wins ∧
    (st.recs k).weighted_wins ≤ (st.recs k).weighted_games

/-- Pointwise weighted invariant of a backend state. -/
def backendWInv (st : BackendState) : Prop :=
  (∀ p, 0 ≤ (st.by_player p).wins_w ∧ (st.by_player p).wins_w ≤ (st.by_player p).games_w)
  ∧ (∀ k : TKey, 0 ≤ (st.by_pair k).wins_w ∧ (st.by_pair k).wins_w ≤ (st.by_pair k).games_w)

/-! ## C2: per-entry contributions of the weighted folds -/

/-- Concrete game used to exhibit the backend denominator contribution of a
non-winning participation: winner bracket 1, single other bracket 5, so the
delta is -4 and the game weight clips to 1.4. -/
def exGameC2 : PodGame :=
  ⟨1, some ("w".data),
    [⟨"w".data, "X".data, some 1⟩, ⟨"l".data, "Y".data, some 5⟩]⟩

/-! ## C9: the unweighted tables never count more wins than games -/

/-- Winrate formula shared by every row builder: wins / games * 100, or 0
when games is 0 (the Python conditional expression guards the division). -/
def winrateVal (wins games : ℚ) : ℚ :=
  if games ≠ 0 then wins / games * 100 else 0

/-- Invariant carried through the unweighted fold: wins never exceed the
game-set size, and every recorded game id has already been processed. -/
def aggInv {K : Type} (S : Finset Nat) (st : Agg K) : Prop :=
  ∀ k : K, st.wins k ≤ (st.games k).card ∧ st.games k ⊆ S

/-- Key function of the triples table. -/
def tripleKey : Nat → ParsedEntry → TKey := fun _ e => (e.player, e.commander, e.bracket)

/-- Pointwise agreement of the unweighted components of the triples fold with
the generic aggregate. -/
def triplesAgrees (t : Triples) (a : Agg TKey) : Prop :=
  ∀ k : TKey, (t.recs k).wins = a.wins k ∧ (t.recs k).games = a.games k

/-- Row-level health of an unweighted aggregate: wins never exceed the
number of distinct games and the winrate is a percentage in [0, 100]. -/
def tableOk {K : Type} (a : Agg K) : Prop :=
  ∀ k : K, a.wins k ≤ (a.games k).card ∧
    0 ≤ winrateVal (a.wins k : ℚ) ((a.games k).card : ℚ) ∧
    winrateVal (a.wins k : ℚ) ((a.games k).card : ℚ) ≤ 100

/-- Concrete two-game dataset used as witness input. -/
def exGamesC9 : List PodGame :=
  [⟨1, some ("b".data), [⟨"b".data, "Y".data, none⟩]⟩,
   ⟨2, none, [⟨"a".data, "X".data, none⟩]⟩]

/-! ## Row builders (presentation of the stats tables)

The row records carry the fields the claims are about (identity, games,
wins, winrate and, for triples, the weighted winrate in [0, 100]); the
presentation-only columns of the source rows (unique_commanders,
top_commander, bpi, bpi_label, delta_coverage, avg_table_bracket) are
omitted as no claim mentions them. -/

/-- Row of the per-player table (src/commander_tracker_light/stats_data.py
lines 99-122). -/
structure PlayerRow where
  player : List Char
  games : Nat
  wins : Nat
  winrate : ℚ

/-- Row of the per-pair table (stats_data.py lines 124-130). -/
structure PairRow where
  player : List Char
  commander : List Char
  games : Nat
  wins : Nat
  winrate : ℚ

/-- Row of the triples table (stats_data.py lines 260-292). -/
structure TripleRow where
  player : List Char
  commander : List Char
  bracket : Option Int
  games : Nat
  wins : Nat
  winrate : ℚ
  weighted_wr : ℚ

/-- Unsorted per-player rows, in dict insertion order. -/
def player_rows (gs : List PodGame) : List PlayerRow :=
  let st := playerAgg gs
  st.order.map (fun p =>
    ⟨p, (st.games p).card, st.wins p,
      winrateVal (st.wins p : ℚ) (((st.games p).card : ℚ))⟩)

/-- Unsorted per-pair rows, in dict insertion order. -/
def pair_rows (gs : List PodGame) : List PairRow :=
  let st := pairAgg gs
  st.order.map (fun k =>
    ⟨k.1, k.2, (st.games k).card, st.wins k,
      winrateVal (st.wins k : ℚ) (((st.games k).card : ℚ))⟩)

/-- Unsorted triple rows, in dict insertion order.  The weighted denominator
falls back to the plain games count when it is zero (the Python
rec.get("weighted_games") or games_n). -/
def triple_rows (alpha : ℚ) (gs : List PodGame) : List TripleRow :=
  let st := buildTriples alpha gs
  st.order.map (fun k =>
    let r := st.recs k
    let games_n := r.games.card
    let wg : ℚ := if r.weighted_games = 0 then (games_n : ℚ) else r.weighted_games
    ⟨k.1, k.2.1, k.2.2, games_n, r.wins,
      winrateVal (r.wins : ℚ) ((games_n : ℚ)),
      winrateVal r.weighted_wins wg⟩)

/-! ## Dashboard top-players extraction (src/app.py lines 744-809) -/

/-- Game row as the dashboard sees it. -/
structure GameRec where
  gid : Nat
  winner : Option (List Char)

/-- Flat entry row as the dashboard sees it. -/
structure EntryRec where
  gid : Nat
  player : List Char
  commander : List Char
  bracket : Option Int

/-- games_by_player: per player, the set of game ids of its entries, with
dict insertion order (src/app.py lines 776-779). -/
def games_by_player (entries : List EntryRec) : Agg (List Char) :=
  entries.foldl
    (fun st e =>
      { games := Function.update st.games e.player (insert e.gid (st.games e.player)),
        wins := st.wins,
        order := if e.player ∈ st.order then st.order else st.order ++ [e.player] })
    ⟨fun _ => ∅, fun _ => 0, []⟩

/-- wins_by_player: count of games recorded as won, per truthy winner name
(src/app.py lines 789-792). -/
def wins_by_player (games : List GameRec) : List Char → Nat :=
  games.foldl
    (fun f g =>
      match g.winner with
      | some w => if w ≠ [] then Function.update f w (f w + 1) else f
      | none => f)
    (fun _ => 0)

/-- Unsorted dashboard winrate rows: players with at least min_pg games, in
dict order (src/app.py lines 799-805). -/
def dash_player_wr_rows (games : List GameRec) (entries : List EntryRec)
    (min_pg : Nat) : List PlayerRow :=
  let gb := games_by_player entries
  let wb := wins_by_player games
  (gb.order.filter (fun p => !decide ((gb.games p).card < min_pg))).map
    (fun p => ⟨p, (gb.games p).card, wb p,
      winrateVal (wb p : ℚ) (((gb.games p).card : ℚ))⟩)

/-! ## Sort keys and sorted tables

Python list.sort with a key tuple orders ascending lexicographically; each
sort key below is the key tuple of the corresponding source sort call, with
negated numeric components for the descending parts. -/

/-- Sort key of player_rows.sort (stats_data.py line 122): descending games,
then ascending lowercased player. -/
def playerRowKey (r : PlayerRow) : Lex (ℤ × List Char) :=
  toLex (-(r.games : ℤ), pyLower r.player)

/-- Sort key of pair_rows.sort (stats_data.py line 130): descending games,
then ascending lowercased player and commander. -/
def pairRowKey (r : PairRow) : Lex (ℤ × Lex (List Char × List Char)) :=
  toLex (-(r.games : ℤ), toLex (pyLower r.player, pyLower r.commander))

/-- Sort key of triple_rows.sort (stats_data.py lines 294-302): descending
games, then descending weighted winrate, descending winrate, ascending
lowercased player and commander. -/
def tripleRowKey (r : TripleRow) :
    Lex (ℤ × Lex (ℚ × Lex (ℚ × Lex (List Char × List Char)))) :=
  toLex (-(r.games : ℤ),
    toLex (-r.weighted_wr, toLex (-r.winrate,
      toLex (pyLower r.player, pyLower r.commander))))

/-- Sort key of the dashboard player_wr_rows.sort (src/app.py line 808):
descending winrate, then descending games, then ascending lowercased
player. -/
def dashRowKey (r : PlayerRow) : Lex (ℚ × Lex (ℤ × List Char)) :=
  toLex (-r.winrate, toLex (-(r.games : ℤ), pyLower r.player))

/-- Sorted per-player table. -/
def player_rows_sorted (gs : List PodGame) : List PlayerRow :=
  List.insertionSort (fun r s => playerRowKey r ≤ playerRowKey s) (player_rows gs)

/-- Sorted per-pair table. -/
def pair_rows_sorted (gs : List PodGame) : List PairRow :=
  List.insertionSort (fun r s => pairRowKey r ≤ pairRowKey s) (pair_rows gs)

/-- Sorted and truncated triples table (top_triples clamped to [10, 500] as
in the source). -/
def triple_rows_sorted (alpha : ℚ) (gs : List PodGame) (top_triples : Nat) :
    List TripleRow :=
  (List.insertionSort (fun r s => tripleRowKey r ≤ tripleRowKey s)
    (triple_rows alpha gs)).take (max 10 (min 500 top_triples))

/-- Dashboard top players: threshold clamped below by 1, sort by the
dashboard key, take the top_players clamped to [1, 50]. -/
def dash_top_players (games : List GameRec) (entries : List EntryRec)
    (min_pg top_players : Nat) : List PlayerRow :=
  (List.insertionSort (fun r s => dashRowKey r ≤ dashRowKey s)
    (dash_player_wr_rows games entries (max 1 min_pg))).take
    (max 1 (min 50 top_players))

/-- Spec-side top-N ordering key (spec section 4.3): primary descending
games, secondary descending winrate, tertiary ascending case-insensitive
name. -/
def specTopKey (r : PlayerRow) : Lex (ℤ × Lex (ℚ × List Char)) :=
  toLex (-(r.games : ℤ), toLex (-r.winrate, pyLower r.player))

/-! ## C6: winrate definition and division-by-zero safety -/

/-- Model of Python float division, which raises ZeroDivisionError on a zero
denominator. -/
def pydiv (a b : ℚ) : Except String ℚ :=
  if b = 0 then Except.error ("ZeroDivisionError") else Except.ok (a / b)

/-- Model of the guarded winrate expression of the row builders, with the
division modelled as the raising pydiv: (wins / games * 100.0) if games
else 0.0. -/
def winrateExpr (wins games : ℚ) : Except String ℚ :=
  if games ≠ 0 then
    match pydiv wins games with
    | Except.error e => Except.error e
    | Except.ok q => Except.ok (q * 100)
  else Except.ok 0

/-! ## C4: the sort contracts of the top-N extractions -/

/-- Concrete dashboard games: player b wins game 1, game 2 has no winner. -/
def exDashGames : List GameRec := [⟨1, some ("b".data)⟩, ⟨2, none⟩]

/-- Concrete dashboard entries: a plays games 1 and 2, b plays game 1. -/
def exDashEntries : List EntryRec :=
  [⟨1, "a".data, "X".data, none⟩, ⟨1, "b".data, "Y".data, none⟩,
   ⟨2, "a".data, "X".data, none⟩]

theorem nullTokens_toInt_none : ∀ t ∈ nullTokens, pyToInt t = none := by decide

theorem pyStrip_nil : pyStrip [] = [] := rfl

theorem getLastD_nil_eq (d : List Char) : ([] : List (List Char)).getLastD d = d := rfl

theorem intercalate_singleton (sep c : List Char) : sep.intercalate [c] = c := by
  simp [List.intercalate]

/-- C8: the entry parser splits each non-empty line on the spaced separator
when it occurs in the line and on the bare hyphen otherwise; a bracket token
in the null set yields an absent bracket; a two-field legacy line parses with
an absent bracket; and an integer bracket token outside the range 1 to 5
produces a validation error instead of a parsed entry. -/
theorem C8_parser_contract :
    (∀ line : List Char, parse_line line =
        parse_parts ((splitOnL (if containsSeq sepSpaced line then sepSpaced
          else sepBare) line).map pyStrip))
    ∧ parse_entries "Ann - Le-Roi - 2".data =
        Except.ok [⟨"Ann".data, "Le-Roi".data, some 2⟩]
    ∧ parse_entries "Ann-LeRoi-2".data =
        Except.ok [⟨"Ann".data, "LeRoi".data, some 2⟩]
    ∧ (∀ p c tok : List Char, p ≠ [] → pyLower (pyStrip tok) ∈ nullTokens →
        pyStrip c ≠ [] →
        parse_parts [p, c, tok] = Except.ok ⟨p, pyStrip c, none⟩)
    ∧ (∀ p c : List Char, p ≠ [] → pyStrip c ≠ [] →
        parse_parts [p, c] = Except.ok ⟨p, pyStrip c, none⟩)
    ∧ (∀ (p c tok : List Char) (v : Int), pyToInt (pyLower (pyStrip tok)) = some v →
        (v < 1 ∨ 5 < v) → ∃ msg, parse_parts [p, c, tok] = Except.error msg)
    ∧ parse_entries "Ann - Krenko - 6".data = Except.error ("Bracket fuori range") := by
  refine ⟨fun line => rfl, by decide, by decide, ?_, ?_, ?_, by decide⟩
  · intro p c tok hp htok hc
    have hcne : c ≠ [] := fun h => hc (by rw [h]; rfl)
    simp only [parse_parts]
    rw [if_neg (by simp)]
    simp only [List.headD_cons]
    rw [if_neg hp, if_pos (by simp), if_pos ?_]
    · simp only [List.drop_succ_cons, List.drop_zero, List.dropLast_cons₂,
        List.dropLast_single]
      rw [List.filter_cons_of_pos (by simpa using hcne)]
      simp only [List.filter_nil, intercalate_singleton]
      rw [if_neg hc]
    · simpa using htok
  · intro p c hp hc
    have hcne : c ≠ [] := fun h => hc (by rw [h]; rfl)
    simp only [parse_parts]
    rw [if_neg (by simp)]
    simp only [List.headD_cons]
    rw [if_neg hp, if_neg (by simp)]
    simp only [List.drop_succ_cons, List.drop_zero]
    rw [List.filter_cons_of_pos (by simpa using hcne)]
    simp only [List.filter_nil, intercalate_singleton]
    rw [if_neg hc]
  · intro p c tok v hv hrange
    simp only [parse_parts]
    rw [if_neg (by simp)]
    simp only [List.headD_cons]
    by_cases hp : p = []
    · exact ⟨"Riga non valida", by rw [if_pos hp]⟩
    · rw [if_neg hp, if_pos (by simp)]
      have hnot : pyLower (pyStrip ([p, c, tok].getLastD [])) ∉ nullTokens := by
        intro hmem
        have := nullTokens_toInt_none _ hmem
        simp only [List.getLastD_cons, getLastD_nil_eq] at this hmem ⊢
        rw [this] at hv
        exact Option.noConfusion hv
      rw [if_neg hnot]
      simp only [List.getLastD_cons, getLastD_nil_eq] at hv ⊢
      rw [hv]
      exact ⟨"Bracket fuori range", by simp [hrange]⟩

/-- Witness for C8: the null-token clause applied at a concrete line. -/
theorem C8_witness :
    parse_parts ["Ann".data, "Krenko".data, "n/a".data] =
      Except.ok ⟨"Ann".data, pyStrip ("Krenko".data), none⟩ :=
  C8_parser_contract.2.2.2.1 ("Ann".data) ("Krenko".data) ("n/a".data)
    (by decide) (by decide) (by decide)

theorem parse_parts_valid (parts : List (List Char)) (e : ParsedEntry)
    (h : parse_parts parts = Except.ok e) : entryValid e := by
  simp only [parse_parts] at h
  split at h
  · simp at h
  · split at h
    · simp at h
    · rename_i hlen hplayer
      split at h
      · simp at h
      · rename_i br cps heq
        split at h
        · simp at h
        · rename_i hcomm
          injection h with h
          subst h
          refine ⟨hplayer, hcomm, ?_⟩
          split at heq
          · split at heq
            · injection heq with heq
              rw [Prod.mk.injEq] at heq
              exact Or.inl heq.1.symm
            · split at heq
              · simp at heq
              · split at heq
                · simp at heq
                · rename_i v hv hrange
                  injection heq with heq
                  rw [Prod.mk.injEq] at heq
                  push_neg at hrange
                  exact Or.inr ⟨v, heq.1.symm, by omega, by omega⟩
          · injection heq with heq
            rw [Prod.mk.injEq] at heq
            exact Or.inl heq.1.symm

theorem parse_lines_valid (lines : List (List Char)) (out : List ParsedEntry)
    (h : parse_lines lines = Except.ok out) : ∀ e ∈ out, entryValid e := by
  induction lines generalizing out with
  | nil =>
      simp only [parse_lines] at h
      injection h with h
      subst h
      intro e he
      exact absurd he (List.not_mem_nil e)
  | cons raw rest ih =>
      simp only [parse_lines] at h
      split at h
      · exact ih out h
      · split at h
        · exact absurd h (by simp)
        · rename_i entry hline
          split at h
          · exact absurd h (by simp)
          · rename_i out0 hrest
            injection h with h
            subst h
            intro e he
            rcases List.mem_cons.mp he with he | he
            · subst he
              exact parse_parts_valid _ _ hline
            · exact ih out0 hrest e he

/-- C10: whenever parse_entries returns without raising, the returned list is
non-empty and every entry has a non-empty player, a non-empty commander and a
bracket that is either absent or an integer in the range 1 to 5. -/
theorem C10_parse_entries_ok_valid (text : List Char) (out : List ParsedEntry)
    (h : parse_entries text = Except.ok out) :
    out ≠ [] ∧ ∀ e ∈ out, entryValid e := by
  simp only [parse_entries] at h
  split at h
  · exact absurd h (by simp)
  · rename_i out0 hlines
    split at h
    · exact absurd h (by simp)
    · rename_i hne
      injection h with h
      subst h
      exact ⟨hne, parse_lines_valid _ _ hlines⟩

/-- Witness for C10 at the concrete legacy two-field input. -/
theorem C10_witness :
    ([⟨"Ann".data, "Krenko".data, none⟩] : List ParsedEntry) ≠ [] ∧
      ∀ e ∈ ([⟨"Ann".data, "Krenko".data, none⟩] : List ParsedEntry), entryValid e :=
  C10_parse_entries_ok_valid ("Ann - Krenko".data) _ (by decide)

theorem filterMap_bracket_eq (es : List ParsedEntry) :
    es.filterMap (fun e => e.bracket) =
      (es.filter (fun e => e.bracket ≠ none)).map (fun e => e.bracket.getD 0) := by
  induction es with
  | nil => rfl
  | cons e rest ih =>
      cases hb : e.bracket <;>
        simp [List.filterMap_cons, List.filter_cons, hb, ih]

/-- C5: the table bracket average is the arithmetic mean of the bracket
values of exactly the rated entries, and it is none (not a sentinel number)
exactly when the pod has zero rated entries. -/
theorem C5_table_bracket_avg (entries : List ParsedEntry) :
    compute_table_bracket_avg entries = spec_table_bracket_average entries
    ∧ (compute_table_bracket_avg entries = none ↔
        entries.filter (fun e => e.bracket ≠ none) = []) := by
  have key := filterMap_bracket_eq entries
  unfold compute_table_bracket_avg spec_table_bracket_average
  rw [key]
  constructor
  · by_cases h : (entries.filter (fun e => e.bracket ≠ none)) = []
    · rw [if_pos (by rw [h]; rfl), if_pos (by rw [h]; rfl)]
    · rw [if_neg (fun hm => h (List.map_eq_nil_iff.mp hm)),
        if_neg (fun hl => h (List.length_eq_zero.mp hl))]
      rw [List.length_map]
  · by_cases h : (entries.filter (fun e => e.bracket ≠ none)) = []
    · rw [h]
      simp
    · rw [if_neg (fun hm => h (List.map_eq_nil_iff.mp hm))]
      exact ⟨fun hc => absurd hc (by simp), fun hc => absurd hc h⟩

/-- C3 counterexample: at delta = -4 the backend win-weight function returns
the clipped value 1.4, not the value 1 + alpha * (-delta) = 3 that the
specified piecewise formula gives at the default alpha = 0.5. -/
theorem C3_counterexample :
    backend_weight (-4) = 14 / 10
    ∧ win_weight_from_delta (-4) (1 / 2) = 3
    ∧ ((14 : ℝ) / 10 ≠ 3) := by
  refine ⟨?_, by norm_num [win_weight_from_delta], by norm_num⟩
  have hexp : (11 : ℝ) / 5 ≤ Real.exp (6 / 5) := by
    have := Real.add_one_le_exp (6 / 5 : ℝ)
    linarith
  have h1 : (0 : ℝ) < Real.exp (6 / 5) := Real.exp_pos _
  simp only [backend_weight, pyclip]
  rw [show (-(3 / 10 : ℝ) * (-4)) = 6 / 5 by norm_num]
  rw [if_neg (by linarith), if_pos (by linarith)]

/-- C3 (amended): the core win-weight function win_weight_from_delta returns
exactly the specified piecewise value, with alpha clamped to 0 when negative:
1 / (1 + a * d) for d > 0, 1 + a * (-d) for d < 0, and 1 for d = 0.  (The
backend engine uses a different weight function, see the counterexample.) -/
theorem C3_win_weight_piecewise (d a : ℚ) :
    (0 < d → win_weight_from_delta d a = 1 / (1 + (if a < 0 then 0 else a) * d))
    ∧ (d < 0 → win_weight_from_delta d a = 1 + (if a < 0 then 0 else a) * (-d))
    ∧ (d = 0 → win_weight_from_delta d a = 1) := by
  refine ⟨fun hd => ?_, fun hd => ?_, fun hd => ?_⟩ <;>
    simp only [win_weight_from_delta]
  · rw [if_pos hd]
  · rw [if_neg (by linarith), if_pos hd]
  · subst hd
    simp

/-- Witness for C3 at d = -2, a = 1. -/
theorem C3_witness :
    win_weight_from_delta (-2) 1 = 1 + (if (1 : ℚ) < 0 then 0 else 1) * (-(-2)) :=
  (C3_win_weight_piecewise (-2) 1).2.1 (by norm_num)

/-- C7: for every fixed alpha > 0 the win-weight function is strictly
decreasing in delta over the whole rational line, across all three pieces. -/
theorem C7_win_weight_strictAnti (a : ℚ) (ha : 0 < a) :
    StrictAnti (fun d => win_weight_from_delta d a) := by
  intro d1 d2 h12
  simp only [win_weight_from_delta, if_neg (not_lt.mpr ha.le)]
  rcases lt_trichotomy d1 0 with h1 | h1 | h1 <;>
    rcases lt_trichotomy d2 0 with h2 | h2 | h2
  · rw [if_neg (by linarith), if_pos h2, if_neg (by linarith), if_pos h1]
    have : a * (-d2) < a * (-d1) := by
      apply mul_lt_mul_of_pos_left _ ha
      linarith
    linarith
  · rw [if_neg (by linarith), if_neg (by linarith), if_neg (by linarith), if_pos h1]
    have : 0 < a * (-d1) := mul_pos ha (by linarith)
    linarith
  · rw [if_pos h2, if_neg (by linarith), if_pos h1]
    have hp : 0 < 1 + a * d2 := by
      have : 0 < a * d2 := mul_pos ha h2
      linarith
    have hlt : 1 / (1 + a * d2) < 1 := by
      rw [div_lt_one hp]
      have : 0 < a * d2 := mul_pos ha h2
      linarith
    have : 0 < a * (-d1) := mul_pos ha (by linarith)
    linarith
  · linarith
  · linarith
  · rw [if_pos h2, if_neg (by linarith), if_neg (by linarith)]
    subst h1
    have hp : 0 < 1 + a * d2 := by
      have : 0 < a * d2 := mul_pos ha h2
      linarith
    rw [div_lt_one hp]
    have : 0 < a * d2 := mul_pos ha h2
    linarith
  · linarith
  · linarith
  · rw [if_pos h2, if_pos h1]
    have hp1 : 0 < 1 + a * d1 := by
      have : 0 < a * d1 := mul_pos ha h1
      linarith
    apply one_div_lt_one_div_of_lt hp1
    have : a * d1 < a * d2 := mul_lt_mul_of_pos_left h12 ha
    linarith

/-- Witness for C7 at a = 1, comparing delta = 0 and delta = 1. -/
theorem C7_witness : win_weight_from_delta 1 1 < win_weight_from_delta 0 1 :=
  C7_win_weight_strictAnti 1 one_pos (show (0 : ℚ) < 1 by norm_num)

/-! ## C1: the weighted bound -/

theorem win_weight_pos (d a : ℚ) : 0 < win_weight_from_delta d a := by
  simp only [win_weight_from_delta]
  have ha : 0 ≤ (if a < 0 then 0 else a : ℚ) := by
    split
    · exact le_refl 0
    · linarith [not_lt.mp (by assumption : ¬a < 0)]
  split
  · rename_i hd
    have : 0 < 1 + (if a < 0 then 0 else a) * d := by
      have := mul_nonneg ha hd.le
      linarith
    positivity
  · split
    · rename_i hd
      have : 0 ≤ (if a < 0 then 0 else a) * (-d) := mul_nonneg ha (by linarith)
      linarith
    · norm_num

theorem backend_weight_pos (d : ℝ) : 0 < backend_weight d := by
  simp only [backend_weight, pyclip]
  split
  · norm_num
  · split
    · norm_num
    · exact Real.exp_pos _

theorem backendGameWeight_pos (g : PodGame) : 0 < backendGameWeight g := by
  simp only [backendGameWeight]
  split
  · exact backend_weight_pos _
  · norm_num

theorem foldl_preserve {α σ : Type} (P : σ → Prop) (f : σ → α → σ)
    (h : ∀ s a, P s → P (f s a)) :
    ∀ (l : List α) (s : σ), P s → P (l.foldl f s) := by
  intro l
  induction l with
  | nil => intro s hs; exact hs
  | cons a rest ih => intro s hs; exact ih (f s a) (h s a hs)

theorem tripleEntry_winv (alpha : ℚ) (gid : Nat) (winner : Option (List Char))
    (bavg : Option ℚ) (st : Triples) (e : ParsedEntry)
    (h : triplesWInv st) : triplesWInv (tripleEntry alpha gid winner bavg st e) := by
  intro k
  by_cases hk : k = (e.player, e.commander, e.bracket)
  · subst hk
    simp only [tripleEntry, Function.update_same]
    obtain ⟨h0, h1⟩ := h (e.player, e.commander, e.bracket)
    by_cases hwin : winnerIs winner e.player
    · rw [if_pos hwin]
      cases hb : e.bracket with
      | some b =>
          rw [hb] at h0 h1
          cases hv : bavg with
          | some avg =>
              have hwp := win_weight_pos ((b : ℚ) - avg) alpha
              constructor <;> simp <;> linarith
          | none => constructor <;> simp <;> linarith
      | none =>
          rw [hb] at h0 h1
          cases hv : bavg <;> (constructor <;> simp <;> linarith)
    · rw [if_neg hwin]
      constructor <;> simp <;> linarith
  · simp only [tripleEntry, Function.update_noteq hk]
    exact h k

theorem buildTriples_winv (alpha : ℚ) (gs : List PodGame) :
    triplesWInv (buildTriples alpha gs) := by
  apply foldl_preserve triplesWInv
  · intro st g
    apply foldl_preserve triplesWInv
    intro st2 e
    exact tripleEntry_winv alpha g.gid g.winner _ st2 e
  · intro k
    simp [emptyTripleRec]

theorem backendEntry_winv (w : ℝ) (hw : 0 < w) (winner : Option (List Char))
    (st : BackendState) (e : ParsedEntry)
    (h : backendWInv st) : backendWInv (backendEntry w winner st e) := by
  obtain ⟨hp, hc⟩ := h
  constructor
  · intro p
    simp only [backendEntry, Function.update_apply]
    split
    · rename_i hkp
      obtain ⟨h0, h1⟩ := hp e.player
      split
      · constructor <;> simp <;> linarith
      · constructor <;> simp <;> linarith
    · exact hp p
  · intro k
    simp only [backendEntry, Function.update_apply]
    split
    · rename_i hkc
      obtain ⟨h0, h1⟩ := hc (e.player, e.commander, e.bracket)
      split
      · constructor <;> simp <;> linarith
      · constructor <;> simp <;> linarith
    · exact hc k

theorem backendStats_winv (gs : List PodGame) : backendWInv (backendStats gs) := by
  apply foldl_preserve backendWInv
  · intro st g
    apply foldl_preserve backendWInv
    intro st2 e
    exact backendEntry_winv _ (backendGameWeight_pos g) g.winner st2 e
  · constructor <;> intro k <;> simp [emptyWRec]

/-- C1: in every weighted aggregate table of both engines, the accumulated
weighted wins of a key never exceed its accumulated weighted games, for every
dataset and every alpha at least 0 (the triples fold clamps a negative alpha
anyway, the backend engine has no alpha parameter). -/
theorem C1_weighted_bound (alpha : ℚ) (ha : 0 ≤ alpha) (gs : List PodGame) :
    (∀ k : TKey, 0 ≤ ((buildTriples alpha gs).recs k).weighted_wins ∧
      ((buildTriples alpha gs).recs k).weighted_wins ≤
        ((buildTriples alpha gs).recs k).weighted_games)
    ∧ (∀ p : List Char, 0 ≤ ((backendStats gs).by_player p).wins_w ∧
        ((backendStats gs).by_player p).wins_w ≤ ((backendStats gs).by_player p).games_w)
    ∧ (∀ k : TKey, 0 ≤ ((backendStats gs).by_pair k).wins_w ∧
        ((backendStats gs).by_pair k).wins_w ≤ ((backendStats gs).by_pair k).games_w) :=
  ⟨buildTriples_winv alpha gs, (backendStats_winv gs).1, (backendStats_winv gs).2⟩

theorem backend_weight_neg4 : backend_weight (-4) = 14 / 10 := by
  have hexp : (11 : ℝ) / 5 ≤ Real.exp (6 / 5) := by
    have := Real.add_one_le_exp (6 / 5 : ℝ)
    linarith
  simp only [backend_weight, pyclip]
  rw [show (-(3 / 10 : ℝ) * (-4)) = 6 / 5 by norm_num]
  rw [if_neg (by linarith), if_pos (by linarith)]

/-- C2 (amended): contribution contract of the two weighted folds.  In the
triples fold a win with computable delta adds its weight w to numerator and
denominator, a win without computable delta adds 1 to both, a non-winning
participation adds 0 to the numerator and 1 to the denominator, and no other
key changes.  In the backend fold every participation adds the per-game
weight w to the denominator (also the non-winning ones), the winner entry
adds w to the numerator, and the game weight is 1 when the winner bracket or
the rated others are missing. -/
theorem C2_contribution_contract :
    (∀ (alpha : ℚ) (gid : Nat) (winner : Option (List Char)) (bavg : Option ℚ)
        (st : Triples) (e : ParsedEntry) (b : Int) (avg : ℚ),
      winnerIs winner e.player = true → e.bracket = some b → bavg = some avg →
      ((tripleEntry alpha gid winner bavg st e).recs
          (e.player, e.commander, e.bracket)).weighted_wins =
        (st.recs (e.player, e.commander, e.bracket)).weighted_wins +
          win_weight_from_delta ((b : ℚ) - avg) alpha ∧
      ((tripleEntry alpha gid winner bavg st e).recs
          (e.player, e.commander, e.bracket)).weighted_games =
        (st.recs (e.player, e.commander, e.bracket)).weighted_games +
          win_weight_from_delta ((b : ℚ) - avg) alpha)
    ∧ (∀ (alpha : ℚ) (gid : Nat) (winner : Option (List Char)) (bavg : Option ℚ)
        (st : Triples) (e : ParsedEntry),
      winnerIs winner e.player = true → (e.bracket = none ∨ bavg = none) →
      ((tripleEntry alpha gid winner bavg st e).recs
          (e.player, e.commander, e.bracket)).weighted_wins =
        (st.recs (e.player, e.commander, e.bracket)).weighted_wins + 1 ∧
      ((tripleEntry alpha gid winner bavg st e).recs
          (e.player, e.commander, e.bracket)).weighted_games =
        (st.recs (e.player, e.commander, e.bracket)).weighted_games + 1)
    ∧ (∀ (alpha : ℚ) (gid : Nat) (winner : Option (List Char)) (bavg : Option ℚ)
        (st : Triples) (e : ParsedEntry),
      winnerIs winner e.player = false →
      ((tripleEntry alpha gid winner bavg st e).recs
          (e.player, e.commander, e.bracket)).weighted_wins =
        (st.recs (e.player, e.commander, e.bracket)).weighted_wins ∧
      ((tripleEntry alpha gid winner bavg st e).recs
          (e.player, e.commander, e.bracket)).weighted_games =
        (st.recs (e.player, e.commander, e.bracket)).weighted_games + 1)
    ∧ (∀ (alpha : ℚ) (gid : Nat) (winner : Option (List Char)) (bavg : Option ℚ)
        (st : Triples) (e : ParsedEntry) (k : TKey),
      k ≠ (e.player, e.commander, e.bracket) →
      (tripleEntry alpha gid winner bavg st e).recs k = st.recs k)
    ∧ (∀ (w : ℝ) (winner : Option (List Char)) (st : BackendState) (e : ParsedEntry),
      ((backendEntry w winner st e).by_player e.player).games_w =
        (st.by_player e.player).games_w + w ∧
      (eqWinner winner e.player = true →
        ((backendEntry w winner st e).by_player e.player).wins_w =
          (st.by_player e.player).wins_w + w) ∧
      (eqWinner winner e.player = false →
        ((backendEntry w winner st e).by_player e.player).wins_w =
          (st.by_player e.player).wins_w))
    ∧ (∀ g : PodGame, backendWinnerBracket g = none ∨ backendOthers g = [] →
        backendGameWeight g = 1) := by
  refine ⟨?_, ?_, ?_, ?_, ?_, ?_⟩
  · intro alpha gid winner bavg st e b avg hwin hb hv
    simp only [tripleEntry, Function.update_same]
    rw [if_pos hwin, hb, hv]
    constructor <;> simp [hb]
  · intro alpha gid winner bavg st e hwin hor
    simp only [tripleEntry, Function.update_same]
    rw [if_pos hwin]
    rcases hor with hb | hv
    · rw [hb]
      cases bavg <;> (constructor <;> simp [hb])
    · rw [hv]
      cases hb : e.bracket <;> (constructor <;> simp [hb])
  · intro alpha gid winner bavg st e hwin
    simp only [tripleEntry, Function.update_same]
    rw [if_neg (by rw [hwin]; exact Bool.false_ne_true)]
    constructor <;> simp
  · intro alpha gid winner bavg st e k hk
    simp only [tripleEntry, Function.update_noteq hk]
  · intro w winner st e
    simp only [backendEntry, Function.update_same]
    refine ⟨?_, fun hwin => ?_, fun hwin => ?_⟩
    · split <;> simp
    · rw [if_pos hwin]
    · rw [if_neg (by rw [hwin]; exact Bool.false_ne_true)]
  · intro g hg
    simp only [backendGameWeight]
    rcases hg with hbw | ho
    · rw [hbw]
    · rw [ho]
      split
      · rename_i heq
        exact absurd heq (by simp)
      · rfl

/-- Witness for C2: the non-winning clause of the triples fold at concrete
arguments. -/
theorem C2_witness :
    ((tripleEntry (1/2) 1 none none ⟨fun _ => emptyTripleRec, []⟩
        ⟨"a".data, "X".data, none⟩).recs ("a".data, "X".data, none)).weighted_wins =
      ((⟨fun _ => emptyTripleRec, []⟩ : Triples).recs
        ("a".data, "X".data, none)).weighted_wins ∧
    ((tripleEntry (1/2) 1 none none ⟨fun _ => emptyTripleRec, []⟩
        ⟨"a".data, "X".data, none⟩).recs ("a".data, "X".data, none)).weighted_games =
      ((⟨fun _ => emptyTripleRec, []⟩ : Triples).recs
        ("a".data, "X".data, none)).weighted_games + 1 :=
  C2_contribution_contract.2.2.1 (1/2) 1 none none
    ⟨fun _ => emptyTripleRec, []⟩ ⟨"a".data, "X".data, none⟩ rfl

theorem exGameC2_weight : backendGameWeight exGameC2 = 14 / 10 := by
  have hfind : exGameC2.entries.find? (fun e => eqWinner exGameC2.winner e.player) =
      some ⟨"w".data, "X".data, some (1 : Int)⟩ := by decide
  have hfilter : exGameC2.entries.filter (fun e => !eqWinner exGameC2.winner e.player) =
      [⟨"l".data, "Y".data, some (5 : Int)⟩] := by decide
  have hbw : backendWinnerBracket exGameC2 = some ((1 : Int) : ℝ) := by
    rw [backendWinnerBracket, hfind]
    rfl
  have hoth : backendOthers exGameC2 = [((5 : Int) : ℝ)] := by
    rw [backendOthers, hfilter]
    rfl
  rw [backendGameWeight, hbw, hoth]
  show backend_weight (((1 : Int) : ℝ) -
      (((5 : Int) : ℝ) :: ([] : List ℝ)).sum /
        ((((5 : Int) : ℝ) :: ([] : List ℝ)).length : ℝ)) = 14 / 10
  rw [show (((1 : Int) : ℝ) - (((5 : Int) : ℝ) :: ([] : List ℝ)).sum /
      ((((5 : Int) : ℝ) :: ([] : List ℝ)).length : ℝ)) = -4 by norm_num]
  exact backend_weight_neg4

/-- C2 counterexample: in the backend weighted fold, the non-winning player
of the concrete game (winner bracket 1, other bracket 5) contributes the
clipped game weight 1.4, not 1, to its weighted denominator games_w. -/
theorem C2_counterexample :
    ((backendStats [exGameC2]).by_player ("l".data)).games_w = 14 / 10 ∧
      ((14 : ℝ) / 10 ≠ 1) := by
  refine ⟨?_, by norm_num⟩
  simp only [backendStats, List.foldl, backendGame]
  rw [exGameC2_weight]
  simp only [exGameC2, List.foldl, backendEntry]
  rw [Function.update_same]
  rw [if_neg (by decide : ¬(eqWinner (some ("w".data)) ("l".data) = true))]
  simp only [Function.update_noteq (by decide : ("l".data : List Char) ≠ "w".data)]
  simp [emptyWRec]

theorem winrateVal_bounds (w g : Nat) (h : w ≤ g) :
    0 ≤ winrateVal (w : ℚ) (g : ℚ) ∧ winrateVal (w : ℚ) (g : ℚ) ≤ 100 := by
  unfold winrateVal
  split
  · rename_i hg
    have hgpos : (0 : ℚ) < g := by
      rcases Nat.eq_zero_or_pos g with h0 | h0
      · exact absurd (by rw [h0]; norm_num) hg
      · exact_mod_cast h0
    constructor
    · positivity
    · have : (w : ℚ) / g ≤ 1 := by
        rw [div_le_one hgpos]
        exact_mod_cast h
      linarith
  · norm_num

theorem aggFold_wins {K : Type} [DecidableEq K] (key : Nat → ParsedEntry → K)
    (gid n : Nat) (winner : Option (List Char)) :
    ∀ (es : List ParsedEntry) (st : Agg K) (k : K),
      (es.foldl (aggEntry key gid n winner) st).wins k =
        st.wins k +
          es.countP (fun e => winnerIs winner e.player && decide (key n e = k)) := by
  intro es
  induction es with
  | nil => intro st k; simp
  | cons e rest ih =>
      intro st k
      rw [List.foldl_cons, ih, List.countP_cons]
      have : (aggEntry key gid n winner st e).wins k =
          st.wins k + (if winnerIs winner e.player && decide (key n e = k) then 1 else 0) := by
        simp only [aggEntry]
        by_cases hwin : winnerIs winner e.player
        · rw [if_pos hwin]
          by_cases hk : key n e = k
          · subst hk
            rw [Function.update_same, if_pos (by simp [hwin])]
          · rw [Function.update_noteq (fun hc => hk hc.symm),
              if_neg (by simp [hk]), Nat.add_zero]
        · rw [if_neg hwin, if_neg (by simp [hwin]), Nat.add_zero]
      rw [this]
      omega

theorem aggFold_games_subset {K : Type} [DecidableEq K] (key : Nat → ParsedEntry → K)
    (gid n : Nat) (winner : Option (List Char)) :
    ∀ (es : List ParsedEntry) (st : Agg K) (k : K),
      st.games k ⊆ (es.foldl (aggEntry key gid n winner) st).games k := by
  intro es
  induction es with
  | nil => intro st k; exact Finset.Subset.refl _
  | cons e rest ih =>
      intro st k
      rw [List.foldl_cons]
      refine Finset.Subset.trans ?_ (ih _ k)
      simp only [aggEntry]
      by_cases hk : key n e = k
      · subst hk
        rw [Function.update_same]
        exact Finset.subset_insert _ _
      · rw [Function.update_noteq (fun hc => hk hc.symm)]

theorem aggFold_games_bound {K : Type} [DecidableEq K] (key : Nat → ParsedEntry → K)
    (gid n : Nat) (winner : Option (List Char)) :
    ∀ (es : List ParsedEntry) (st : Agg K) (k : K),
      (es.foldl (aggEntry key gid n winner) st).games k ⊆ st.games k ∪ {gid} := by
  intro es
  induction es with
  | nil => intro st k; exact Finset.subset_union_left
  | cons e rest ih =>
      intro st k
      rw [List.foldl_cons]
      refine Finset.Subset.trans (ih _ k) ?_
      refine Finset.union_subset ?_ Finset.subset_union_right
      simp only [aggEntry]
      by_cases hk : key n e = k
      · subst hk
        rw [Function.update_same]
        intro x hx
        rcases Finset.mem_insert.mp hx with h | h
        · subst h
          exact Finset.mem_union_right _ (Finset.mem_singleton_self _)
        · exact Finset.mem_union_left _ h
      · rw [Function.update_noteq (fun hc => hk hc.symm)]
        exact Finset.subset_union_left

theorem aggFold_games_mem {K : Type} [DecidableEq K] (key : Nat → ParsedEntry → K)
    (gid n : Nat) (winner : Option (List Char)) :
    ∀ (es : List ParsedEntry) (st : Agg K) (k : K),
      (∃ e ∈ es, key n e = k) →
      gid ∈ (es.foldl (aggEntry key gid n winner) st).games k := by
  intro es
  induction es with
  | nil =>
      intro st k h
      obtain ⟨e, he, _⟩ := h
      exact absurd he (List.not_mem_nil e)
  | cons e rest ih =>
      intro st k h
      rw [List.foldl_cons]
      rcases h with ⟨e2, he2, hk2⟩
      rcases List.mem_cons.mp he2 with he2 | he2
      · subst he2
        apply aggFold_games_subset
        simp only [aggEntry]
        subst hk2
        rw [Function.update_same]
        exact Finset.mem_insert_self _ _
      · exact ih _ k ⟨e2, he2, hk2⟩

theorem countP_player_le_one (es : List ParsedEntry) (w : List Char)
    (hnd : (es.map ParsedEntry.player).Nodup) :
    es.countP (fun e => decide (e.player = w)) ≤ 1 := by
  induction es with
  | nil => simp
  | cons e rest ih =>
      rw [List.map_cons, List.nodup_cons] at hnd
      obtain ⟨hnotin, hrest⟩ := hnd
      rw [List.countP_cons]
      by_cases hp : e.player = w
      · have hz : rest.countP (fun e => decide (e.player = w)) = 0 := by
          rw [List.countP_eq_zero]
          intro e2 he2
          simp only [decide_eq_true_eq]
          intro hc
          exact hnotin (by
            rw [hp, ← hc]
            exact List.mem_map_of_mem ParsedEntry.player he2)
        simp [hz, hp]
      · have := ih hrest
        simp [hp]
        omega

theorem countP_win_le_one {K : Type} [DecidableEq K] (key : Nat → ParsedEntry → K)
    (n : Nat) (winner : Option (List Char)) (k : K) (es : List ParsedEntry)
    (hnd : (es.map ParsedEntry.player).Nodup) :
    es.countP (fun e => winnerIs winner e.player && decide (key n e = k)) ≤ 1 := by
  cases winner with
  | none =>
      have : es.countP (fun e => winnerIs none e.player && decide (key n e = k)) = 0 := by
        rw [List.countP_eq_zero]
        intro e he
        simp [winnerIs]
      omega
  | some w =>
      refine le_trans (List.countP_mono_left ?_) (countP_player_le_one es w hnd)
      intro e he
      simp only [winnerIs, Bool.and_eq_true, decide_eq_true_eq, Bool.not_eq_true']
      rintro ⟨⟨-, hw⟩, -⟩
      exact (eq_of_beq hw).symm

theorem aggGame_inv {K : Type} [DecidableEq K] (key : Nat → ParsedEntry → K)
    (g : PodGame) (st : Agg K) (S : Finset Nat)
    (hInv : aggInv S st) (hgid : g.gid ∉ S)
    (hpod : (g.entries.map ParsedEntry.player).Nodup) :
    aggInv (insert g.gid S) (aggGame key st g) := by
  intro k
  obtain ⟨h1, h2⟩ := hInv k
  have hw := aggFold_wins key g.gid g.entries.length g.winner g.entries st k
  have hsub1 := aggFold_games_subset key g.gid g.entries.length g.winner g.entries st k
  have hsub2 := aggFold_games_bound key g.gid g.entries.length g.winner g.entries st k
  have hcle := countP_win_le_one key g.entries.length g.winner k g.entries hpod
  constructor
  · rcases Nat.eq_zero_or_pos
        (g.entries.countP
          (fun e => winnerIs g.winner e.player &&
            decide (key g.entries.length e = k))) with hc | hc
    · rw [show aggGame key st g =
          g.entries.foldl (aggEntry key g.gid g.entries.length g.winner) st from rfl,
        hw, hc, Nat.add_zero]
      exact le_trans h1 (Finset.card_le_card hsub1)
    · have hc1 : g.entries.countP
          (fun e => winnerIs g.winner e.player &&
            decide (key g.entries.length e = k)) = 1 := by omega
      rw [show aggGame key st g =
          g.entries.foldl (aggEntry key g.gid g.entries.length g.winner) st from rfl,
        hw, hc1]
      have hex : ∃ e ∈ g.entries, key g.entries.length e = k := by
        have hpos : (0 : Nat) < g.entries.countP
            (fun e => winnerIs g.winner e.player &&
              decide (key g.entries.length e = k)) := by omega
        obtain ⟨e, he, hpe⟩ := List.countP_pos_iff.mp hpos
        exact ⟨e, he, by
          have := (Bool.and_eq_true _ _).mp hpe
          exact of_decide_eq_true this.2⟩
      have hmem := aggFold_games_mem key g.gid g.entries.length g.winner g.entries st k hex
      have hnotin : g.gid ∉ st.games k := fun hmm => hgid (h2 hmm)
      have hins : insert g.gid (st.games k) ⊆
          (g.entries.foldl (aggEntry key g.gid g.entries.length g.winner) st).games k :=
        Finset.insert_subset hmem hsub1
      calc st.wins k + 1 ≤ (st.games k).card + 1 := by omega
        _ = (insert g.gid (st.games k)).card := (Finset.card_insert_of_not_mem hnotin).symm
        _ ≤ _ := Finset.card_le_card hins
  · refine Finset.Subset.trans hsub2 ?_
    intro x hx
    rcases Finset.mem_union.mp hx with h | h
    · exact Finset.mem_insert_of_mem (h2 h)
    · rw [Finset.mem_singleton.mp h]
      exact Finset.mem_insert_self _ _

theorem foldl_agg_inv {K : Type} [DecidableEq K] (key : Nat → ParsedEntry → K) :
    ∀ (gs : List PodGame) (st : Agg K) (S : Finset Nat),
      aggInv S st → (gs.map PodGame.gid).Nodup → (∀ g ∈ gs, g.gid ∉ S) →
      (∀ g ∈ gs, (g.entries.map ParsedEntry.player).Nodup) →
      ∃ T : Finset Nat, aggInv T (gs.foldl (aggGame key) st) := by
  intro gs
  induction gs with
  | nil => intro st S hInv _ _ _; exact ⟨S, hInv⟩
  | cons g rest ih =>
      intro st S hInv hnd hdis hpods
      rw [List.map_cons, List.nodup_cons] at hnd
      rw [List.foldl_cons]
      refine ih (aggGame key st g) (insert g.gid S)
        (aggGame_inv key g st S hInv (hdis g (List.mem_cons_self g rest))
          (hpods g (List.mem_cons_self g rest)))
        hnd.2 ?_ (fun g2 hg2 => hpods g2 (List.mem_cons_of_mem g hg2))
      intro g2 hg2 hmem
      rcases Finset.mem_insert.mp hmem with h | h
      · exact hnd.1 (h ▸ List.mem_map_of_mem PodGame.gid hg2)
      · exact hdis g2 (List.mem_cons_of_mem g hg2) h

theorem runAgg_wins_le {K : Type} [DecidableEq K] (key : Nat → ParsedEntry → K)
    (gs : List PodGame) (hnd : (gs.map PodGame.gid).Nodup)
    (hpods : ∀ g ∈ gs, (g.entries.map ParsedEntry.player).Nodup) :
    ∀ k : K, (runAgg key gs).wins k ≤ ((runAgg key gs).games k).card := by
  have h0 : aggInv (∅ : Finset Nat) (⟨fun _ => ∅, fun _ => 0, []⟩ : Agg K) := by
    intro k
    exact ⟨by simp, Finset.Subset.refl _⟩
  obtain ⟨T, hT⟩ := foldl_agg_inv key gs _ ∅ h0 hnd (by simp) hpods
  exact fun k => (hT k).1

theorem tripleEntry_agrees (alpha : ℚ) (gid n : Nat) (winner : Option (List Char))
    (bavg : Option ℚ) (t : Triples) (a : Agg TKey) (e : ParsedEntry)
    (h : triplesAgrees t a) :
    triplesAgrees (tripleEntry alpha gid winner bavg t e)
      (aggEntry tripleKey gid n winner a e) := by
  intro k
  by_cases hk : k = (e.player, e.commander, e.bracket)
  · subst hk
    obtain ⟨hW, hG⟩ := h (e.player, e.commander, e.bracket)
    simp only [tripleEntry, aggEntry, tripleKey, Function.update_same]
    by_cases hwin : winnerIs winner e.player
    · rw [if_pos hwin, if_pos hwin, Function.update_same]
      cases hb : e.bracket <;> cases hv : bavg <;>
        (rw [hb] at hW hG; exact ⟨by simp [hW], by simp [hG]⟩)
    · rw [if_neg hwin, if_neg hwin]
      exact ⟨by simp [hW], by simp [hG]⟩
  · obtain ⟨hW, hG⟩ := h k
    simp only [tripleEntry, aggEntry, tripleKey, Function.update_noteq hk]
    by_cases hwin : winnerIs winner e.player
    · rw [if_pos hwin, Function.update_noteq hk]
      exact ⟨hW, hG⟩
    · rw [if_neg hwin]
      exact ⟨hW, hG⟩

theorem tripleFold_agrees (alpha : ℚ) (gid n : Nat) (winner : Option (List Char))
    (bavg : Option ℚ) :
    ∀ (es : List ParsedEntry) (t : Triples) (a : Agg TKey),
      triplesAgrees t a →
      triplesAgrees (es.foldl (tripleEntry alpha gid winner bavg) t)
        (es.foldl (aggEntry tripleKey gid n winner) a) := by
  intro es
  induction es with
  | nil => intro t a h; exact h
  | cons e rest ih =>
      intro t a h
      rw [List.foldl_cons, List.foldl_cons]
      exact ih _ _ (tripleEntry_agrees alpha gid n winner bavg t a e h)

theorem buildTriples_agrees (alpha : ℚ) (gs : List PodGame) :
    triplesAgrees (buildTriples alpha gs) (runAgg tripleKey gs) := by
  have main : ∀ (l : List PodGame) (t : Triples) (a : Agg TKey),
      triplesAgrees t a →
      triplesAgrees (l.foldl (tripleGame alpha) t) (l.foldl (aggGame tripleKey) a) := by
    intro l
    induction l with
    | nil => intro t a h; exact h
    | cons g rest ih =>
        intro t a h
        rw [List.foldl_cons, List.foldl_cons]
        exact ih _ _ (tripleFold_agrees alpha g.gid g.entries.length g.winner
          (compute_table_bracket_avg g.entries) g.entries t a h)
  exact main gs _ _ (fun k => ⟨rfl, rfl⟩)

theorem tableOk_of_wins_le {K : Type} (a : Agg K)
    (h : ∀ k : K, a.wins k ≤ (a.games k).card) : tableOk a := by
  intro k
  obtain ⟨h0, h1⟩ := winrateVal_bounds (a.wins k) ((a.games k).card) (h k)
  exact ⟨h k, h0, h1⟩

/-- C9: assuming distinct game ids and at most one seat per player in every
pod, every unweighted aggregate table (per player, per pair, per pod size,
per bracket bucket, per triple) satisfies wins less than or equal to games,
so the unweighted winrate is in [0, 100]. -/
theorem C9_unweighted_bounds (gs : List PodGame)
    (hnd : (gs.map PodGame.gid).Nodup)
    (hpods : ∀ g ∈ gs, (g.entries.map ParsedEntry.player).Nodup) :
    tableOk (playerAgg gs) ∧ tableOk (pairAgg gs) ∧ tableOk (playerBySizeAgg gs)
    ∧ tableOk (pairBySizeAgg gs) ∧ tableOk (bracketAgg gs)
    ∧ (∀ k : TKey, ((buildTriples (1/2) gs).recs k).wins ≤
        (((buildTriples (1/2) gs).recs k).games).card) := by
  refine ⟨tableOk_of_wins_le _ (runAgg_wins_le _ gs hnd hpods),
    tableOk_of_wins_le _ (runAgg_wins_le _ gs hnd hpods),
    tableOk_of_wins_le _ (runAgg_wins_le _ gs hnd hpods),
    tableOk_of_wins_le _ (runAgg_wins_le _ gs hnd hpods),
    tableOk_of_wins_le _ (runAgg_wins_le _ gs hnd hpods), ?_⟩
  intro k
  obtain ⟨hW, hG⟩ := buildTriples_agrees (1/2) gs k
  rw [hW, hG]
  exact runAgg_wins_le tripleKey gs hnd hpods k

/-- Witness for C9 at the concrete dataset. -/
theorem C9_witness :
    tableOk (playerAgg exGamesC9) ∧ tableOk (pairAgg exGamesC9)
    ∧ tableOk (playerBySizeAgg exGamesC9) ∧ tableOk (pairBySizeAgg exGamesC9)
    ∧ tableOk (bracketAgg exGamesC9)
    ∧ (∀ k : TKey, ((buildTriples (1/2) exGamesC9).recs k).wins ≤
        (((buildTriples (1/2) exGamesC9).recs k).games).card) :=
  C9_unweighted_bounds exGamesC9 (by decide) (by decide)

/-- Witness for C1 at the concrete dataset and alpha = 1/2. -/
theorem C1_witness :
    (∀ k : TKey, 0 ≤ ((buildTriples (1/2) exGamesC9).recs k).weighted_wins ∧
      ((buildTriples (1/2) exGamesC9).recs k).weighted_wins ≤
        ((buildTriples (1/2) exGamesC9).recs k).weighted_games)
    ∧ (∀ p : List Char, 0 ≤ ((backendStats exGamesC9).by_player p).wins_w ∧
        ((backendStats exGamesC9).by_player p).wins_w ≤
          ((backendStats exGamesC9).by_player p).games_w)
    ∧ (∀ k : TKey, 0 ≤ ((backendStats exGamesC9).by_pair k).wins_w ∧
        ((backendStats exGamesC9).by_pair k).wins_w ≤
          ((backendStats exGamesC9).by_pair k).games_w) :=
  C1_weighted_bound (1/2) (by norm_num) exGamesC9

theorem sorted_insertionSort_key {α β : Type} [LinearOrder β] (f : α → β)
    (l : List α) :
    List.Sorted (fun a b => f a ≤ f b)
      (List.insertionSort (fun a b => f a ≤ f b) l) := by
  haveI : IsTotal α (fun a b => f a ≤ f b) := ⟨fun a b => le_total (f a) (f b)⟩
  haveI : IsTrans α (fun a b => f a ≤ f b) := ⟨fun a b c => le_trans⟩
  exact List.sorted_insertionSort _ _

theorem sorted_take {α : Type} {r : α → α → Prop} {l : List α}
    (h : List.Sorted r l) (n : Nat) : List.Sorted r (l.take n) :=
  List.Pairwise.sublist (List.take_sublist n l) h

/-- C6: the winrate expression never raises (it always returns the guarded
value winrateVal), winrateVal is wins / games * 100 for games different from
0 and 0 for games = 0, and every row of the player, pair and triple tables
carries exactly that value. -/
theorem C6_winrate_total :
    (∀ w g : ℚ, winrateExpr w g = Except.ok (winrateVal w g))
    ∧ (∀ w g : ℚ, g ≠ 0 → winrateVal w g = w / g * 100)
    ∧ (∀ w : ℚ, winrateVal w 0 = 0)
    ∧ (∀ gs : List PodGame, ∀ r ∈ player_rows gs,
        r.winrate = winrateVal (r.wins : ℚ) ((r.games : ℚ)))
    ∧ (∀ gs : List PodGame, ∀ r ∈ pair_rows gs,
        r.winrate = winrateVal (r.wins : ℚ) ((r.games : ℚ)))
    ∧ (∀ (alpha : ℚ) (gs : List PodGame), ∀ r ∈ triple_rows alpha gs,
        r.winrate = winrateVal (r.wins : ℚ) ((r.games : ℚ))) := by
  refine ⟨?_, ?_, ?_, ?_, ?_, ?_⟩
  · intro w g
    by_cases hg : g = 0 <;> simp [winrateExpr, pydiv, winrateVal, hg]
  · intro w g hg
    simp [winrateVal, hg]
  · intro w
    simp [winrateVal]
  · intro gs r hr
    obtain ⟨p, hp, hre⟩ := List.mem_map.mp hr
    rw [← hre]
  · intro gs r hr
    obtain ⟨k, hk, hre⟩ := List.mem_map.mp hr
    rw [← hre]
  · intro alpha gs r hr
    obtain ⟨k, hk, hre⟩ := List.mem_map.mp hr
    rw [← hre]

/-- Witness for C6: the positive-games clause at wins 1, games 2. -/
theorem C6_witness : winrateVal 1 2 = 1 / 2 * 100 :=
  C6_winrate_total.2.1 1 2 (by norm_num)

/-- C4 (amended): each produced table is sorted by the key its source sort
call actually uses.  The stats player and pair tables sort by descending
games then ascending case-insensitive name, with no winrate key; the triples
table inserts descending weighted winrate then descending winrate between
games and names; the dashboard top-players extraction sorts by descending
winrate first, then descending games, then ascending case-insensitive
name. -/
theorem C4_sort_contract :
    (∀ gs : List PodGame,
      List.Sorted (fun r s => playerRowKey r ≤ playerRowKey s) (player_rows_sorted gs)
      ∧ (player_rows_sorted gs).Perm (player_rows gs))
    ∧ (∀ gs : List PodGame,
      List.Sorted (fun r s => pairRowKey r ≤ pairRowKey s) (pair_rows_sorted gs)
      ∧ (pair_rows_sorted gs).Perm (pair_rows gs))
    ∧ (∀ (alpha : ℚ) (gs : List PodGame) (t : Nat),
      List.Sorted (fun r s => tripleRowKey r ≤ tripleRowKey s)
        (triple_rows_sorted alpha gs t))
    ∧ (∀ (games : List GameRec) (entries : List EntryRec) (mp tp : Nat),
      List.Sorted (fun r s => dashRowKey r ≤ dashRowKey s)
        (dash_top_players games entries mp tp)) :=
  ⟨fun gs => ⟨sorted_insertionSort_key playerRowKey _, List.perm_insertionSort _ _⟩,
   fun gs => ⟨sorted_insertionSort_key pairRowKey _, List.perm_insertionSort _ _⟩,
   fun alpha gs t => sorted_take (sorted_insertionSort_key tripleRowKey _) _,
   fun games entries mp tp => sorted_take (sorted_insertionSort_key dashRowKey _) _⟩

theorem exDash_rows :
    dash_player_wr_rows exDashGames exDashEntries 1 =
      [⟨"a".data, 2, 0, 0⟩, ⟨"b".data, 1, 1, 100⟩] := by
  simp +decide [dash_player_wr_rows, games_by_player, wins_by_player, winrateVal,
    List.foldl, Function.update, exDashGames, exDashEntries]

/-- C4 counterexample: the dashboard top-players extraction on the concrete
dataset returns the one-game player b (winrate 100) before the two-game
player a (winrate 0), so the produced order is not sorted by the claimed
primary key descending games. -/
theorem C4_counterexample :
    (dash_top_players exDashGames exDashEntries 1 10).map
        (fun r => (r.player, r.games)) = [("b".data, 1), ("a".data, 2)]
    ∧ ¬ List.Sorted (fun r s => specTopKey r ≤ specTopKey s)
        (dash_top_players exDashGames exDashEntries 1 10) := by
  have hkey : ¬(dashRowKey ⟨"a".data, 2, 0, 0⟩ ≤ dashRowKey ⟨"b".data, 1, 1, 100⟩) := by
    simp only [dashRowKey]
    rw [Prod.Lex.le_iff]
    push_neg
    norm_num
  have hlist : dash_top_players exDashGames exDashEntries 1 10 =
      [⟨"b".data, 1, 1, 100⟩, ⟨"a".data, 2, 0, 0⟩] := by
    rw [dash_top_players]
    rw [show max 1 1 = 1 from rfl]
    rw [exDash_rows]
    simp only [List.insertionSort, List.orderedInsert]
    rw [if_neg hkey]
    rfl
  rw [hlist]
  constructor
  · rfl
  · intro hsorted
    have hle := (List.sorted_cons.mp hsorted).1 ⟨"a".data, 2, 0, 0⟩
      (List.mem_singleton_self _)
    simp only [specTopKey] at hle
    rw [Prod.Lex.le_iff] at hle
    rcases hle with h | ⟨h, -⟩ <;> norm_num at h
